import Mathlib

/-
Verification of the schema-model compiler of `pandera/schema_model.py`.

The Python module turns a class-based declaration (type annotations of shape
`Series[T]` / `Index[T]`, optional `Field(...)` descriptors, and
`@validator`-tagged methods) into a `DataFrameSchema`.  The development below
is a shallow embedding of that module:

* Python dicts (ordered, string-keyed) are association lists with the exact
  insertion-order semantics of `d[k] = v`, `d.pop(k, None)` and `d.update(e)`.
* A Python class is a `ClassDef` record: its name, its method-resolution
  order restricted to the user-declared chain (`inspect.getmro(cls)[:-2]`),
  its own `__annotations__` dict (`none` when the class body declares no
  annotated attribute, in which case attribute lookup falls back to the
  ancestors, exactly as in Python), and its class-body `__dict__` of
  non-special attributes.
* Mutation of class metadata (the `annotations.pop` calls in
  `_get_field_annotations`, and the `cls.__schema__ = ...` cache write in
  `to_schema`) is explicit state passing on a `World` holding every class.
* `re.match` (prefix-anchored, case-sensitive) is modelled by a matcher for
  the pattern subset with literal characters, `.` and postfix `*`; other
  metacharacters are treated as literal characters.
* `SchemaInitError` messages are modelled structurally: each distinct
  f-string in the source becomes one constructor of `Err`, carrying the
  values interpolated into the message.
* The collaborator classes `schema_components.Column`, `schema_components.Index`,
  `schema_components.MultiIndex`, `schemas.DataFrameSchema` and `checks.Check`
  are not part of the analysed source; their constructors are modelled from
  the spec as records of the keyword arguments the analysed module passes.
-/

set_option autoImplicit false

namespace Pandera

/-! ## Ordered string-keyed dictionaries (Python `dict` semantics) -/

/-- First-match lookup in an ordered association list, `d.get(k)` / `k in d`. -/
def dictGet {α : Type} : List (String × α) → String → Option α
  | [], _ => none
  | (k1, v1) :: rest, k => if k1 = k then some v1 else dictGet rest k

/-- Python `d[k] = v`: replace the value in place if the key exists, else
append the new pair at the end (insertion order). -/
def dictSet {α : Type} : List (String × α) → String → α → List (String × α)
  | [], k, v => [(k, v)]
  | (k1, v1) :: rest, k, v =>
    if k1 = k then (k, v) :: rest else (k1, v1) :: dictSet rest k v

/-- Python `d.pop(k, None)`: drop the entry with the given key, if any. -/
def dictPop {α : Type} : List (String × α) → String → List (String × α)
  | [], _ => []
  | (k1, v1) :: rest, k => if k1 = k then rest else (k1, v1) :: dictPop rest k

/-- Python `d.update(e)`: set every pair of `e`, in order, into `d`. -/
def dictUpdate {α : Type} (d e : List (String × α)) : List (String × α) :=
  e.foldl (fun acc p => dictSet acc p.1 p.2) d

/-- Union of a set with new members, keeping first-seen order
(models `set.update(...)` for the membership facts we need). -/
def listUnion (a b : List String) : List String :=
  b.foldl (fun acc x => if x ∈ acc then acc else acc ++ [x]) a

/-! ## `re.match`: prefix-anchored, case-sensitive regular-expression match

Models the Python `re` module (an external collaborator of the source) for
the pattern subset built from literal characters, `.` (any character) and a
postfix `*` (zero or more of the previous atom).  `matchHere p s = true` iff
some prefix of `s` matches the whole pattern `p`, which is exactly the
truthiness of `re.compile(p).match(s)` for this subset. -/

def matchHere : Nat → List Char → List Char → Bool
  | 0, _, _ => false
  | _ + 1, [], _ => true
  | fuel + 1, c :: '*' :: p, s =>
    matchHere fuel p s ||
      (match s with
       | [] => false
       | x :: s' => (c == '.' || c == x) && matchHere fuel (c :: '*' :: p) s')
  | fuel + 1, c :: p, x :: s => (c == '.' || c == x) && matchHere fuel p s
  | _ + 1, _ :: _, [] => false

/-- Truthiness of `re.compile(pat).match(s)`.  The fuel argument of
`matchHere` is structural-recursion bookkeeping only: every recursive call
shrinks `p.length + s.length`, so `p.length + s.length + 1` steps always
suffice to reach an answer. -/
def reMatch (pat s : String) : Bool :=
  matchHere (pat.data.length + s.data.length + 1) pat.data s.data

/-! ## Checks and the `Field` constructor -/

/-- The shared check-evaluation options every `_check_dispatch` factory
receives (`ignore_na`, `raise_warning`, `n_failure_cases`). -/
structure CheckKwargs where
  ignore_na : Bool
  raise_warning : Bool
  n_failure_cases : Nat
deriving DecidableEq, Repr

/-- An opaque check predicate, one constructor per factory of
`_check_dispatch`, plus `custom` for a `Check` wrapping a validator method.
Numeric constraint payloads are modelled as `Int`. -/
inductive Check where
  | equal_to (v : Int) (kw : CheckKwargs)
  | not_equal_to (v : Int) (kw : CheckKwargs)
  | greater_than (v : Int) (kw : CheckKwargs)
  | greater_than_or_equal_to (v : Int) (kw : CheckKwargs)
  | less_than (v : Int) (kw : CheckKwargs)
  | less_than_or_equal_to (v : Int) (kw : CheckKwargs)
  | in_range (min_value max_value : Int) (kw : CheckKwargs)
  | isin (vs : List Int) (kw : CheckKwargs)
  | notin (vs : List Int) (kw : CheckKwargs)
  | str_contains (s : String) (kw : CheckKwargs)
  | str_endswith (s : String) (kw : CheckKwargs)
  | str_matches (s : String) (kw : CheckKwargs)
  | str_length (min_value max_value : Nat) (kw : CheckKwargs)
  | str_startswith (s : String) (kw : CheckKwargs)
  | custom (fnName : String)
deriving DecidableEq, Repr

/-- `CheckList = Optional[Union[Check, List[Check]]]`: the argument shapes
`_to_checklist` accepts. -/
inductive CheckArg where
  | one (c : Check)
  | many (cs : List Check)
deriving DecidableEq, Repr

/-- `_to_checklist`: normalize an optional check-or-list argument to a list. -/
def _to_checklist : Option CheckArg → List Check
  | none => []
  | some (.one c) => [c]
  | some (.many cs) => cs

/-- `FieldInfo`: captures extra information about a field. -/
structure FieldInfo where
  checks : List Check
  nullable : Bool
  allow_duplicates : Bool
  coerce : Bool
  regex : Bool
deriving DecidableEq, Repr

/-- `FieldInfo.__init__`. -/
def FieldInfo.make (checks : Option CheckArg) (nullable : Bool)
    (allow_duplicates : Bool) (coerce : Bool) (regex : Bool) : FieldInfo :=
  { checks := _to_checklist checks
    nullable := nullable
    allow_duplicates := allow_duplicates
    coerce := coerce
    regex := regex }

/-! ## Type annotations (`Series[T]`, `Index[T]`, `Optional[...]`) -/

/-- A Python type expression as seen by `typing_inspect`:
`base` is an unsubscripted type (e.g. `int`), `series`/`index` are the two
container shapes, `optional` is the optionality marker `Optional[...]`, and
`generic` is any other subscripted type. -/
inductive TypeExpr where
  | base (n : String)
  | series (arg : TypeExpr)
  | index (arg : TypeExpr)
  | optional (arg : TypeExpr)
  | generic (n : String) (arg : TypeExpr)
deriving DecidableEq, Repr

/-- The result of `get_origin`. -/
inductive Origin where
  | seriesO
  | indexO
  | otherO (n : String)
  | noneO
deriving DecidableEq, Repr

/-- `typing_inspect.get_origin`: `Series[T] ↦ Series`, `Index[T] ↦ Index`,
`Optional[T] ↦ Union`, unsubscripted types have no origin. -/
def get_origin : TypeExpr → Origin
  | .base _ => .noneO
  | .series _ => .seriesO
  | .index _ => .indexO
  | .optional _ => .otherO "Union"
  | .generic n _ => .otherO n

/-- `typing_inspect.is_optional_type`. -/
def is_optional_type : TypeExpr → Bool
  | .optional _ => true
  | _ => false

/-- `get_first_arg`: the first type argument of a subscripted type; `none`
models the `IndexError` raised by `get_args(annotation)[0]` on an
unsubscripted type. -/
def get_first_arg : TypeExpr → Option TypeExpr
  | .base _ => none
  | .series a => some a
  | .index a => some a
  | .optional a => some a
  | .generic _ a => some a

/-! ## Schema components (modelled from the spec)

`schema_components.Column`, `schema_components.Index`,
`schema_components.MultiIndex` and `schemas.DataFrameSchema` live outside the
analysed source.  Modelled from the spec: a column specification holds
(dtype, checks, nullable, allow-duplicates, coerce, regex-name-match,
required, name); an index specification the same minus `required`; a
composite index is an ordered list of index specifications; a schema is a
column map plus an optional index. -/

structure Column where
  pandas_dtype : TypeExpr
  checks : List Check
  nullable : Bool
  allow_duplicates : Bool
  coerce : Bool
  required : Bool
  name : Option String
  regex : Bool
deriving DecidableEq, Repr

structure IndexComp where
  pandas_dtype : TypeExpr
  checks : List Check
  nullable : Bool
  allow_duplicates : Bool
  coerce : Bool
  name : Option String
deriving DecidableEq, Repr

inductive SchemaIndex where
  | single (i : IndexComp)
  | multi (is : List IndexComp)
deriving DecidableEq, Repr

structure DataFrameSchema where
  columns : List (String × Column)
  index : Option SchemaIndex
deriving DecidableEq, Repr

/-- Modelled from the spec: the bare `schema_components.Column(dtype,
required=..., checks=..., name=...)` call of `_build_columns_index`, with the
remaining keyword parameters at their default policy values (not nullable,
duplicates allowed, no coercion, no regex-name-match). -/
def bareColumn (dtype : TypeExpr) (required : Bool) (checks : List Check)
    (name : Option String) : Column :=
  { pandas_dtype := dtype
    checks := checks
    nullable := false
    allow_duplicates := true
    coerce := false
    required := required
    name := name
    regex := false }

/-- Modelled from the spec: the bare `schema_components.Index(dtype,
checks=..., name=...)` call, defaults as for `bareColumn`. -/
def bareIndex (dtype : TypeExpr) (checks : List Check)
    (name : Option String) : IndexComp :=
  { pandas_dtype := dtype
    checks := checks
    nullable := false
    allow_duplicates := true
    coerce := false
    name := name }

/-- `FieldInfo.to_column` via `_to_schema_component`: the component receives
`self.checks + checks` together with the descriptor policy flags. -/
def FieldInfo.to_column (fi : FieldInfo) (pandas_dtype : TypeExpr)
    (checks : Option CheckArg) (required : Bool) (name : Option String) : Column :=
  { pandas_dtype := pandas_dtype
    checks := fi.checks ++ _to_checklist checks
    nullable := fi.nullable
    allow_duplicates := fi.allow_duplicates
    coerce := fi.coerce
    required := required
    name := name
    regex := fi.regex }

/-- `FieldInfo.to_index` via `_to_schema_component`. -/
def FieldInfo.to_index (fi : FieldInfo) (pandas_dtype : TypeExpr)
    (checks : Option CheckArg) (name : Option String) : IndexComp :=
  { pandas_dtype := pandas_dtype
    checks := fi.checks ++ _to_checklist checks
    nullable := fi.nullable
    allow_duplicates := fi.allow_duplicates
    coerce := fi.coerce
    name := name }

/-! ## The `Field` factory -/

/-- The keyword arguments of `Field`, each with its Python default. -/
structure FieldArgs where
  eq : Option Int := none
  neq : Option Int := none
  gt : Option Int := none
  ge : Option Int := none
  lt : Option Int := none
  le : Option Int := none
  in_range : Option (Int × Int) := none
  isin : Option (List Int) := none
  notin : Option (List Int) := none
  str_contains : Option String := none
  str_endswith : Option String := none
  str_length : Option (Nat × Nat) := none
  str_matches : Option String := none
  str_startswith : Option String := none
  nullable : Bool := false
  allow_duplicates : Bool := true
  coerce : Bool := false
  regex : Bool := false
  ignore_na : Bool := true
  raise_warning : Bool := false
  n_failure_cases : Nat := 10
deriving DecidableEq, Repr

/-- One entry of the `_check_dispatch` loop: emit a check iff the
corresponding argument is not `None`. -/
def dispatchOne {α : Type} (arg : Option α) (mk : α → Check) : List Check :=
  match arg with
  | none => []
  | some v => [mk v]

/-- `Field(...)`: walk `_check_dispatch` in its (insertion-order) sequence
`eq, neq, gt, ge, lt, le, in_range, isin, notin, str_contains, str_endswith,
str_matches, str_length, str_startswith`, constructing one check per supplied
constraint with the shared evaluation options, then build the `FieldInfo`
from `checks or None` and the policy flags.  The function is total: supplying
zero constraints raises nothing and yields an empty check list. -/
def Field (a : FieldArgs) : FieldInfo :=
  let kw : CheckKwargs :=
    { ignore_na := a.ignore_na
      raise_warning := a.raise_warning
      n_failure_cases := a.n_failure_cases }
  let checks : List Check :=
    dispatchOne a.eq (fun v => .equal_to v kw) ++
    dispatchOne a.neq (fun v => .not_equal_to v kw) ++
    dispatchOne a.gt (fun v => .greater_than v kw) ++
    dispatchOne a.ge (fun v => .greater_than_or_equal_to v kw) ++
    dispatchOne a.lt (fun v => .less_than v kw) ++
    dispatchOne a.le (fun v => .less_than_or_equal_to v kw) ++
    dispatchOne a.in_range (fun p => .in_range p.1 p.2 kw) ++
    dispatchOne a.isin (fun vs => .isin vs kw) ++
    dispatchOne a.notin (fun vs => .notin vs kw) ++
    dispatchOne a.str_contains (fun s => .str_contains s kw) ++
    dispatchOne a.str_endswith (fun s => .str_endswith s kw) ++
    dispatchOne a.str_matches (fun s => .str_matches s kw) ++
    dispatchOne a.str_length (fun p => .str_length p.1 p.2 kw) ++
    dispatchOne a.str_startswith (fun s => .str_startswith s kw)
  FieldInfo.make
    (if checks = [] then none else some (.many checks))
    a.nullable a.allow_duplicates a.coerce a.regex

/-- Python `name.startswith("_")`, evaluated on the character list (the
built-in `String.startsWith` does not reduce definitionally). -/
def underscored (s : String) : Bool :=
  match s.data with
  | [] => false
  | c :: _ => c == '_'

/-- Lexicographic order on names, as `inspect.getmembers` sorts its result. -/
def charListLt : List Char → List Char → Bool
  | [], [] => false
  | [], _ :: _ => true
  | _ :: _, [] => false
  | a :: as, b :: bs => if a < b then true else if b < a then false else charListLt as bs

/-! ## Validator bindings and the class model -/

/-- `_ValidatorConfig`: the metadata tuple `(fields, regex, check)` attached
by the `validator` decorator under `__validator_config__`.  `fields` is a
Python `set` whose iteration order is unspecified; it is modelled as the
list of its members. -/
structure ValidatorConfig where
  fields : List String
  regex : Bool
  check : Check
deriving DecidableEq, Repr

/-- A value bound to a name in a class body: a `FieldInfo`, a function
(possibly carrying a validator binding), or any other object.  `other`
records the name of the value's class (for the declaration error message)
and its Python truthiness. -/
inductive Value where
  | fieldinfo (fi : FieldInfo)
  | method (vc : Option ValidatorConfig)
  | other (clsName : String) (truthy : Bool)
deriving DecidableEq, Repr

/-- Python truthiness of a class-attribute value (`FieldInfo` instances and
functions are always truthy). -/
def Value.isTruthy : Value → Bool
  | .fieldinfo _ => true
  | .method _ => true
  | .other _ t => t

/-- Whether `inspect.isroutine` holds of the value. -/
def Value.isRoutine : Value → Bool
  | .method _ => true
  | _ => false

/-- `isinstance(v, FieldInfo)`. -/
def Value.isFieldInfoB : Value → Bool
  | .fieldinfo _ => true
  | _ => false

/-- The class name interpolated into the `can only be assigned a Field`
error message (`field.__class__`). -/
def Value.valueClsName : Value → String
  | .fieldinfo _ => "FieldInfo"
  | .method _ => "function"
  | .other cn _ => cn

/-- A user-declared schema-model class.  `mro` is
`inspect.getmro(cls)[:-2]`, i.e. the user-declared chain (the class itself
first, `SchemaModel` and `object` excluded); it is stored as metadata, as
Python computes it at class creation.  `anns` is the class's **own**
`__annotations__` dict (`none` when the class body declares no annotated
attribute, so that attribute lookup falls back to the ancestors).  `dict`
holds the attributes assigned in the class body. -/
structure ClassDef where
  name : String
  mro : List String
  anns : Option (List (String × TypeExpr))
  dict : List (String × Value)
deriving DecidableEq, Repr

/-- The mutable state compilation runs in: every user class, the own
`__annotations__` dict of the `SchemaModel` base (which initially holds the
`__schema__: Optional[DataFrameSchema]` entry), and the per-class
`__schema__` cache writes. -/
structure World where
  classes : List ClassDef
  schemaModelAnns : List (String × TypeExpr)
  caches : List (String × DataFrameSchema)
deriving DecidableEq, Repr

/-- Look a class up by name. -/
def findClass (w : World) (n : String) : Option ClassDef :=
  w.classes.find? (fun c => c.name = n)

/-- `getattr(cls, a, None)`: walk the class's MRO and return the first
class-body binding of `a`.  (The attributes of `SchemaModel` itself are all
special-named or routines and are modelled as absent.) -/
def getattrVal (w : World) : List String → String → Option Value
  | [], _ => none
  | n :: rest, a =>
    match findClass w n with
    | none => getattrVal w rest a
    | some c =>
      match dictGet c.dict a with
      | some v => some v
      | none => getattrVal w rest a

/-- All class-body members visible on a class: walk the MRO most-derived
first, keeping the first binding of each name (Python attribute shadowing). -/
def classMembers (w : World) : List String → List (String × Value)
  | [] => []
  | n :: rest =>
    let restM := classMembers w rest
    match findClass w n with
    | none => restM
    | some c => c.dict ++ restM.filter (fun p => !(c.dict.any (fun q => q.1 = p.1)))

/-- Special attributes every class inherits from `type`/`object` (plus the
`__schema__` slot of `SchemaModel`); `inspect.getmembers` reports them as
non-routine members.  All of them are underscore-prefixed, so in
`_get_field_annotations` they can only trigger `annotations.pop`. -/
def builtinMemberNames : List String :=
  ["__annotations__", "__dict__", "__doc__", "__module__", "__weakref__", "__schema__"]

/-- The names `inspect.getmembers(cls, lambda x: not inspect.isroutine(x))`
yields: every non-routine member (most-derived binding decides routineness),
plus the inherited special attributes. -/
def nonRoutineMemberNames (w : World) (mro : List String) : List String :=
  ((classMembers w mro).filter (fun p => !p.2.isRoutine)).map Prod.fst
    ++ builtinMemberNames

/-- `inspect.getmembers(cls, inspect.isfunction)`: the function-valued
members with their validator bindings, sorted by name as `getmembers` does. -/
def insertByName (p : String × Option ValidatorConfig) :
    List (String × Option ValidatorConfig) → List (String × Option ValidatorConfig)
  | [] => [p]
  | q :: rest => if charListLt p.1.data q.1.data then p :: q :: rest else q :: insertByName p rest

def functionMembers (w : World) (mro : List String) :
    List (String × Option ValidatorConfig) :=
  ((classMembers w mro).filterMap
    (fun p => match p.2 with
      | .method vc => some (p.1, vc)
      | _ => none)).foldr insertByName []

/-! ## Errors -/

/-- The errors compilation can raise.  Each `SchemaInitError` f-string of the
source is one constructor carrying the interpolated values; `indexError`
models the uncaught `IndexError` of `get_args(annotation)[0]`;
`classNotFound` is a model-level error for a dangling class name. -/
inductive Err where
  | notAnnotated (clsName : String)
  | validatorNonExistingField (fnName : String) (field : String)
  | notAFieldAssignment (fieldName : String) (valueClsName : String)
  | indexCannotBeOptional (fieldName : String)
  | invalidAnnotationShape (fieldName : String)
  | indexError
  | classNotFound (n : String)
deriving DecidableEq, Repr

/-! ## `_regex_filter` and `_update_checks` -/

/-- `_regex_filter(seq, regexps)`: the set of items of `seq` matching at
least one of the regexes under prefix-anchored `pattern.match`. -/
def _regex_filter (seq : List String) (regexps : List String) : List String :=
  regexps.foldl
    (fun matched regex => listUnion matched (seq.filter (fun s => reMatch regex s)))
    []

/-- The target field set of a validator binding (`matched` in
`_update_checks`): regex patterns are filtered against the known fields,
literal names are taken as given. -/
def resolvedTargets (vc : ValidatorConfig) (fields : List String) : List String :=
  if vc.regex then _regex_filter fields vc.fields else vc.fields

/-- Per-field check lists accumulated during compilation. -/
abbrev ChecksMap : Type := List (String × List Check)

/-- `checks[field].append(check)`, creating the list on first use. -/
def appendCheck (checks : ChecksMap) (field : String) (c : Check) : ChecksMap :=
  match dictGet checks field with
  | some l => dictSet checks field (l ++ [c])
  | none => checks ++ [(field, [c])]

/-- The `for field in matched` loop of `_update_checks`. -/
def updChecksLoop (fnName : String) (check : Check) (fields : List String) :
    ChecksMap → List String → Except Err ChecksMap
  | checks, [] => .ok checks
  | checks, f :: rest =>
    if f ∈ fields then updChecksLoop fnName check fields (appendCheck checks f check) rest
    else .error (.validatorNonExistingField fnName f)

/-- `_update_checks`: extract the validator binding from a function and
append its check to every resolved target field, failing on a target that is
not a known field. -/
def _update_checks (checks : ChecksMap) (fnName : String)
    (vc : Option ValidatorConfig) (fields : List String) : Except Err ChecksMap :=
  match vc with
  | none => .ok checks
  | some vc => updChecksLoop fnName vc.check fields checks (resolvedTargets vc fields)

/-- The `for _, fn in inspect.getmembers(cls, inspect.isfunction)` loop of
`to_schema`. -/
def updateChecksAll (fns : List (String × Option ValidatorConfig))
    (fields : List String) (checks : ChecksMap) : Except Err ChecksMap :=
  match fns with
  | [] => .ok checks
  | (n, vc) :: rest =>
    match _update_checks checks n vc fields with
    | .ok checks1 => updateChecksAll rest fields checks1
    | .error e => .error e

/-! ## `_build_schema_index` and `_build_columns_index` -/

/-- `_build_schema_index`: no index for zero entries, the single entry with
its name forced to `None` for one, a `MultiIndex` of the entries in order
for several. -/
def _build_schema_index (indexes : List IndexComp) : Option SchemaIndex :=
  match indexes with
  | [] => none
  | [i] => some (.single { i with name := none })
  | is => some (.multi is)

/-- What one annotation entry compiles to. -/
inductive BuiltEntry where
  | col (name : String) (c : Column)
  | idx (i : IndexComp)
deriving DecidableEq, Repr

/-- The body of the `for field_name, annotation in annotations.items()` loop
of `_build_columns_index`, in source order: detect and unwrap optionality,
take origin and first argument (the latter may raise `IndexError`), fetch
and type-check the class attribute bound to the field name, then dispatch on
the container shape. -/
def processEntry (w : World) (mro : List String) (checks : ChecksMap)
    (field_name : String) (ann : TypeExpr) : Except Err BuiltEntry :=
  let optional := is_optional_type ann
  let ann1 := if optional then (get_first_arg ann).getD ann else ann
  let schema_component := get_origin ann1
  match get_first_arg ann1 with
  | none => .error .indexError
  | some dtype =>
    let field := getattrVal w mro field_name
    if (field.map (fun v => v.isTruthy && !v.isFieldInfoB)).getD false then
      .error (.notAFieldAssignment field_name
        ((field.map Value.valueClsName).getD ""))
    else
      let field_checks := (dictGet checks field_name).getD []
      match schema_component with
      | .seriesO =>
        let c :=
          match field with
          | some (.fieldinfo fi) =>
            fi.to_column dtype (some (.many field_checks)) (!optional) (some field_name)
          | _ => bareColumn dtype (!optional) field_checks (some field_name)
        .ok (.col field_name c)
      | .indexO =>
        if optional then .error (.indexCannotBeOptional field_name)
        else
          let i :=
            match field with
            | some (.fieldinfo fi) =>
              fi.to_index dtype (some (.many field_checks)) (some field_name)
            | _ => bareIndex dtype field_checks (some field_name)
          .ok (.idx i)
      | _ => .error (.invalidAnnotationShape field_name)

/-- The accumulation loop of `_build_columns_index`. -/
def buildLoop (w : World) (mro : List String) (checks : ChecksMap) :
    List (String × TypeExpr) → List (String × Column) → List IndexComp →
    Except Err (List (String × Column) × List IndexComp)
  | [], columns, indexes => .ok (columns, indexes)
  | (f, ann) :: rest, columns, indexes =>
    match processEntry w mro checks f ann with
    | .error e => .error e
    | .ok (.col n c) => buildLoop w mro checks rest (dictSet columns n c) indexes
    | .ok (.idx i) => buildLoop w mro checks rest columns (indexes ++ [i])

/-- `_build_columns_index`. -/
def _build_columns_index (w : World) (mro : List String) (checks : ChecksMap)
    (annotations : List (String × TypeExpr)) :
    Except Err (List (String × Column) × Option SchemaIndex) :=
  match buildLoop w mro checks annotations [] [] with
  | .error e => .error e
  | .ok (columns, indexes) => .ok (columns, _build_schema_index indexes)

/-! ## `_get_field_annotations` and `_inherit_field_annotations`

`cls.__annotations__` is ordinary attribute lookup: when a class body
declares no annotated attribute the class has no own `__annotations__` and
the access finds the nearest ancestor's dict (ultimately the one of the
`SchemaModel` base itself).  `_get_field_annotations` then mutates that very
dict through `annotations.pop(attr_name, None)`, so both the location of the
resolved dict and the write-back are modelled explicitly. -/

/-- Where `cls.__annotations__` resolved to: a user class's own dict, or the
dict of the `SchemaModel` base. -/
inductive AnnLoc where
  | user (n : String)
  | schemaModel
deriving DecidableEq, Repr

/-- Resolve `cls.__annotations__` along the MRO. -/
def resolveAnns (w : World) : List String → AnnLoc × List (String × TypeExpr)
  | [] => (.schemaModel, w.schemaModelAnns)
  | n :: rest =>
    match findClass w n with
    | none => resolveAnns w rest
    | some c =>
      match c.anns with
      | some d => (.user n, d)
      | none => resolveAnns w rest

/-- Store a mutated annotations dict back at its location. -/
def writeAnns (w : World) (loc : AnnLoc) (d : List (String × TypeExpr)) : World :=
  match loc with
  | .user n =>
    { w with classes :=
        w.classes.map (fun c => if c.name = n then { c with anns := some d } else c) }
  | .schemaModel => { w with schemaModelAnns := d }

/-- The underscore-prefixed non-routine member names of a class: exactly the
names the `annotations.pop(attr_name, None)` branch fires for. -/
def protectedNames (w : World) (mro : List String) : List String :=
  (nonRoutineMemberNames w mro).filter (fun n => underscored n)

/-- `_get_field_annotations(cls)`: read `cls.__annotations__` (with ancestor
fallback), fail if it is empty, then drop every underscore-prefixed member
name from that dict, in place.  The non-fatal warning about unannotated
attributes is not modelled.  Returns the mutated world and the (mutated)
annotations dict. -/
def _get_field_annotations (w : World) (cname : String) :
    World × Except Err (List (String × TypeExpr)) :=
  match findClass w cname with
  | none => (w, .error (.classNotFound cname))
  | some cls =>
    let (loc, anns) := resolveAnns w cls.mro
    if anns.isEmpty then (w, .error (.notAnnotated cname))
    else
      let anns1 := (protectedNames w cls.mro).foldl dictPop anns
      (writeAnns w loc anns1, .ok anns1)

/-- The `for base in reversed(bases)` loop of `_inherit_field_annotations`,
threading the world and merging with `annotations.update(base_annotations)`. -/
def inheritLoop (w : World) :
    List String → List (String × TypeExpr) →
    World × Except Err (List (String × TypeExpr))
  | [], acc => (w, .ok acc)
  | b :: rest, acc =>
    match _get_field_annotations w b with
    | (w1, .ok banns) => inheritLoop w1 rest (dictUpdate acc banns)
    | (w1, .error e) => (w1, .error e)

/-- `_inherit_field_annotations`: collect field annotations from
`inspect.getmro(cls)[:-2]` in reverse (most-ancestral-first) order. -/
def _inherit_field_annotations (w : World) (cls : ClassDef) :
    World × Except Err (List (String × TypeExpr)) :=
  inheritLoop w cls.mro.reverse []

/-! ## `to_schema` -/

/-- `cls.__schema__` truthiness test: attribute lookup along the MRO for a
cache write (the `__schema__ = None` default on `SchemaModel` is falsy). -/
def cacheLookup (w : World) : List String → Option DataFrameSchema
  | [] => none
  | n :: rest =>
    match dictGet w.caches n with
    | some s => some s
    | none => cacheLookup w rest

/-- `cls.__schema__ = schema`: the cache write lands on the class itself. -/
def setCache (w : World) (cname : String) (s : DataFrameSchema) : World :=
  { w with caches := dictSet w.caches cname s }

/-- The compile-and-cache path of `to_schema` (taken when no cached schema
is found): collect annotations, scan the class's functions for validator
bindings, build columns and index, assemble the schema and cache it. -/
def compileAndCache (w : World) (cname : String) (cls : ClassDef) :
    World × Except Err DataFrameSchema :=
  match _inherit_field_annotations w cls with
  | (w1, .error e) => (w1, .error e)
  | (w1, .ok annotations) =>
    match updateChecksAll (functionMembers w1 cls.mro) (annotations.map Prod.fst) [] with
    | .error e => (w1, .error e)
    | .ok checks =>
      match _build_columns_index w1 cls.mro checks annotations with
      | .error e => (w1, .error e)
      | .ok (columns, index) =>
        let s : DataFrameSchema := { columns := columns, index := index }
        (setCache w1 cname s, .ok s)

/-- `SchemaModel.to_schema`: return the cached schema if one is visible,
otherwise compile and cache. -/
def to_schema (w : World) (cname : String) : World × Except Err DataFrameSchema :=
  match findClass w cname with
  | none => (w, .error (.classNotFound cname))
  | some cls =>
    match cacheLookup w cls.mro with
    | some s => (w, .ok s)
    | none => compileAndCache w cname cls

/-- The annotation entry a class's own map gives a field name. -/
def annGet (w : World) (n f : String) : Option TypeExpr :=
  (findClass w n).bind (fun c => c.anns.bind (fun d => dictGet d f))

/-- Relation between worlds before and after a metadata-mutating step:
class names, MROs, class-body dicts and caches are untouched, and
annotation maps agree on every non-underscore-prefixed key. -/
def AnnFrame (w w' : World) : Prop :=
  (∀ n, (findClass w' n).map ClassDef.name = (findClass w n).map ClassDef.name) ∧
  (∀ n, (findClass w' n).map ClassDef.mro = (findClass w n).map ClassDef.mro) ∧
  (∀ n, (findClass w' n).map ClassDef.dict = (findClass w n).map ClassDef.dict) ∧
  w'.caches = w.caches ∧
  (∀ n f, underscored f = false → annGet w' n f = annGet w n f) ∧
  (∀ f, underscored f = false →
    dictGet w'.schemaModelAnns f = dictGet w.schemaModelAnns f)

/-! ## Concrete example inputs used by the claim witnesses -/

/-- The annotation entry of `SchemaModel` itself
(`__schema__: Optional[DataFrameSchema] = None`). -/
def smAnns : List (String × TypeExpr) :=
  [("__schema__", .optional (.base "DataFrameSchema"))]

/-- `class A(SchemaModel): a: Series[int]`. -/
def exCls1 : ClassDef :=
  { name := "A"
    mro := ["A"]
    anns := some [("a", .series (.base "int"))]
    dict := [] }

def exW1 : World :=
  { classes := [exCls1]
    schemaModelAnns := smAnns
    caches := [] }

/-- The schema `A.to_schema()` produces. -/
def exS1 : DataFrameSchema :=
  { columns := [("a", bareColumn (.base "int") true [] (some "a"))]
    index := none }

/-- The world after the first `A.to_schema()` call: only the cache write. -/
def exW1' : World :=
  { exW1 with caches := [("A", exS1)] }

/-- A validator binding with a literal (non-regex) target `"zzz"`. -/
def vcMissing : ValidatorConfig :=
  { fields := ["zzz"], regex := false, check := .custom "check_missing" }

/-- `class V(SchemaModel)` with `a: Series[int]` and a validator method
`check_missing` bound to the non-existing literal field `"zzz"`. -/
def exClsV : ClassDef :=
  { name := "V"
    mro := ["V"]
    anns := some [("a", .series (.base "int"))]
    dict := [("check_missing", .method (some vcMissing))] }

def exW2 : World :=
  { classes := [exClsV]
    schemaModelAnns := smAnns
    caches := [] }

/-- A descriptor with one constraint check (`Field(gt=0)`). -/
def exFI10 : FieldInfo := Field { gt := some 0 }

/-- A class whose field `a: Series[int]` carries the descriptor `exFI10`. -/
def exCls10 : ClassDef :=
  { name := "A10"
    mro := ["A10"]
    anns := some [("a", .series (.base "int"))]
    dict := [("a", .fieldinfo exFI10)] }

def exW10 : World :=
  { classes := [exCls10]
    schemaModelAnns := smAnns
    caches := [] }

/-- `class Parent(SchemaModel): a: Series[int]`. -/
def exClsParent : ClassDef :=
  { name := "Parent"
    mro := ["Parent"]
    anns := some [("a", .series (.base "int"))]
    dict := [] }

/-- `class Child(Parent): pass` — no annotated attribute of its own. -/
def exClsChild : ClassDef :=
  { name := "Child"
    mro := ["Child", "Parent"]
    anns := none
    dict := [] }

def exW6 : World :=
  { classes := [exClsParent, exClsChild]
    schemaModelAnns := smAnns
    caches := [] }

/-- The schema `Child.to_schema()` produces (from the inherited map). -/
def exS6 : DataFrameSchema :=
  { columns := [("a", bareColumn (.base "int") true [] (some "a"))]
    index := none }

/-- `class M(SchemaModel): a: Series[int] = 0` — the field name bound to a
falsy value that is not a `FieldInfo`. -/
def exClsM : ClassDef :=
  { name := "M"
    mro := ["M"]
    anns := some [("a", .series (.base "int"))]
    dict := [("a", .other "int" false)] }

def exW7 : World :=
  { classes := [exClsM]
    schemaModelAnns := smAnns
    caches := [] }

def exS7 : DataFrameSchema :=
  { columns := [("a", bareColumn (.base "int") true [] (some "a"))]
    index := none }

/-- `class Mb(SchemaModel): a: Series[int] = 1` — a truthy non-`FieldInfo`
value bound to the field name. -/
def exClsMb : ClassDef :=
  { name := "Mb"
    mro := ["Mb"]
    anns := some [("a", .series (.base "int"))]
    dict := [("a", .other "int" true)] }

def exW7b : World :=
  { classes := [exClsMb]
    schemaModelAnns := smAnns
    caches := [] }

/-- `class A8(SchemaModel): _x: int = 1; a: Series[int]` — a protected
annotated attribute that is also a class-body member. -/
def exCls8 : ClassDef :=
  { name := "A8"
    mro := ["A8"]
    anns := some [("_x", .base "int"), ("a", .series (.base "int"))]
    dict := [("_x", .other "int" true)] }

def exW8 : World :=
  { classes := [exCls8]
    schemaModelAnns := smAnns
    caches := [] }

def exS8 : DataFrameSchema :=
  { columns := [("a", bareColumn (.base "int") true [] (some "a"))]
    index := none }

/-- The world after `A8.to_schema()`: besides the cache write, the entry
`_x` has been popped from the class's own annotations map. -/
def exW8' : World :=
  { classes := [{ exCls8 with anns := some [("a", .series (.base "int"))] }]
    schemaModelAnns := smAnns
    caches := [("A8", exS8)] }

/-- `class O3(SchemaModel): i: Optional[Index[int]]`. -/
def exCls3 : ClassDef :=
  { name := "O3"
    mro := ["O3"]
    anns := some [("i", .optional (.index (.base "int")))]
    dict := [] }

def exW3 : World :=
  { classes := [exCls3]
    schemaModelAnns := smAnns
    caches := [] }

/-- `class O3b(SchemaModel): a: Series[int]; b: Optional[Series[str]]`. -/
def exCls3b : ClassDef :=
  { name := "O3b"
    mro := ["O3b"]
    anns := some [("a", .series (.base "int")), ("b", .optional (.series (.base "str")))]
    dict := [] }

def exW3b : World :=
  { classes := [exCls3b]
    schemaModelAnns := smAnns
    caches := [] }

/-- The schema `O3b.to_schema()` produces: column `a` required, column `b`
not required, no index. -/
def exS3b : DataFrameSchema :=
  { columns := [("a", bareColumn (.base "int") true [] (some "a")),
                ("b", bareColumn (.base "str") false [] (some "b"))]
    index := none }

/-- `class I4(SchemaModel): idx: Index[int]; val: Series[float]`. -/
def exCls4 : ClassDef :=
  { name := "I4"
    mro := ["I4"]
    anns := some [("idx", .index (.base "int")), ("val", .series (.base "float"))]
    dict := [] }

def exW4 : World :=
  { classes := [exCls4]
    schemaModelAnns := smAnns
    caches := [] }

/-- The schema `I4.to_schema()` produces: one column `val` and a single
index over `int` whose name has been cleared. -/
def exS4 : DataFrameSchema :=
  { columns := [("val", bareColumn (.base "float") true [] (some "val"))]
    index := some (.single (bareIndex (.base "int") [] none)) }

/-- `class I4b(SchemaModel): i0: Index[int]; i1: Index[str]`. -/
def exCls4b : ClassDef :=
  { name := "I4b"
    mro := ["I4b"]
    anns := some [("i0", .index (.base "int")), ("i1", .index (.base "str"))]
    dict := [] }

def exW4b : World :=
  { classes := [exCls4b]
    schemaModelAnns := smAnns
    caches := [] }

/-- The schema `I4b.to_schema()` produces: a composite index of the two
declared indexes, in declaration order, with their names kept. -/
def exS4b : DataFrameSchema :=
  { columns := []
    index := some (.multi [bareIndex (.base "int") [] (some "i0"),
                           bareIndex (.base "str") [] (some "i1")]) }

/-- `class Parent5(SchemaModel): a: Series[int]`. -/
def exClsP5 : ClassDef :=
  { name := "Parent5"
    mro := ["Parent5"]
    anns := some [("a", .series (.base "int"))]
    dict := [] }

/-- `class Child5(Parent5): a: Series[str]` — re-declares `a` with a
different element type. -/
def exClsC5 : ClassDef :=
  { name := "Child5"
    mro := ["Child5", "Parent5"]
    anns := some [("a", .series (.base "str"))]
    dict := [] }

def exW5 : World :=
  { classes := [exClsP5, exClsC5]
    schemaModelAnns := smAnns
    caches := [] }

/-! ## Lemmas about the dictionary operations -/

theorem dictGet_dictSet_self {α : Type} (d : List (String × α)) (k : String) (v : α) :
    dictGet (dictSet d k v) k = some v := by
  induction d with
  | nil => simp [dictGet, dictSet]
  | cons p rest ih =>
    obtain ⟨k1, v1⟩ := p
    by_cases h : k1 = k
    · simp [dictGet, dictSet, h]
    · simp [dictGet, dictSet, h, ih]

theorem dictGet_dictSet_ne {α : Type} (d : List (String × α)) (k k' : String) (v : α)
    (h : k' ≠ k) : dictGet (dictSet d k v) k' = dictGet d k' := by
  induction d with
  | nil => simp [dictGet, dictSet, Ne.symm h]
  | cons p rest ih =>
    obtain ⟨k1, v1⟩ := p
    by_cases h1 : k1 = k
    · subst h1
      simp [dictGet, dictSet, Ne.symm h]
    · simp only [dictSet, if_neg h1, dictGet]
      by_cases h2 : k1 = k'
      · simp [h2]
      · simp [h2, ih]

theorem dictGet_dictPop_ne {α : Type} (d : List (String × α)) (k k' : String)
    (h : k' ≠ k) : dictGet (dictPop d k) k' = dictGet d k' := by
  induction d with
  | nil => simp [dictGet, dictPop]
  | cons p rest ih =>
    obtain ⟨k1, v1⟩ := p
    by_cases h1 : k1 = k
    · subst h1
      simp [dictGet, dictPop, Ne.symm h]
    · simp only [dictPop, if_neg h1, dictGet]
      by_cases h2 : k1 = k'
      · simp [h2]
      · simp [h2, ih]

theorem dictPop_sublist {α : Type} (d : List (String × α)) (k : String) :
    List.Sublist (dictPop d k) d := by
  induction d with
  | nil => simp [dictPop]
  | cons p rest ih =>
    obtain ⟨k1, v1⟩ := p
    by_cases h : k1 = k
    · simp [dictPop, h, List.sublist_cons_self (k1, v1) rest]
    · simpa [dictPop, h] using ih.cons₂ (k1, v1)

theorem foldl_dictPop_sublist {α : Type} (names : List String) :
    ∀ d : List (String × α), List.Sublist (names.foldl dictPop d) d := by
  induction names with
  | nil => intro d; simp
  | cons n rest ih =>
    intro d
    exact (ih (dictPop d n)).trans (dictPop_sublist d n)

theorem dictGet_foldl_dictPop_ne {α : Type} (names : List String) (f : String)
    (h : ∀ n ∈ names, n ≠ f) :
    ∀ d : List (String × α), dictGet (names.foldl dictPop d) f = dictGet d f := by
  induction names with
  | nil => intro d; rfl
  | cons n rest ih =>
    intro d
    have hrest : ∀ m ∈ rest, m ≠ f := fun m hm => h m (List.mem_cons_of_mem n hm)
    rw [List.foldl_cons, ih hrest,
      dictGet_dictPop_ne d n f (fun hh => h n (List.mem_cons_self n rest) hh.symm)]

theorem dictGet_eq_none_of_not_mem {α : Type} (d : List (String × α)) (f : String)
    (h : f ∉ d.map Prod.fst) : dictGet d f = none := by
  induction d with
  | nil => rfl
  | cons p rest ih =>
    obtain ⟨k1, v1⟩ := p
    simp only [List.map_cons, List.mem_cons] at h
    push_neg at h
    simp [dictGet, Ne.symm h.1, ih h.2]

theorem not_mem_of_dictGet_eq_none {α : Type} (d : List (String × α)) (f : String)
    (h : dictGet d f = none) : f ∉ d.map Prod.fst := by
  induction d with
  | nil => simp
  | cons p rest ih =>
    obtain ⟨k1, v1⟩ := p
    by_cases h1 : k1 = f
    · simp [dictGet, h1] at h
    · simp only [dictGet, if_neg h1] at h
      simp [Ne.symm h1, ih h]

theorem dictGet_dictUpdate_not_mem {α : Type} (e : List (String × α)) (f : String)
    (h : f ∉ e.map Prod.fst) :
    ∀ d : List (String × α), dictGet (dictUpdate d e) f = dictGet d f := by
  induction e with
  | nil => intro d; rfl
  | cons p e' ih =>
    intro d
    obtain ⟨k, v⟩ := p
    simp only [List.map_cons, List.mem_cons] at h
    push_neg at h
    show dictGet (dictUpdate (dictSet d k v) e') f = dictGet d f
    rw [ih h.2, dictGet_dictSet_ne d k f v h.1]

theorem dictGet_dictUpdate_mem {α : Type} (e : List (String × α)) (f : String) (t : α)
    (hnodup : (e.map Prod.fst).Nodup) (h : dictGet e f = some t) :
    ∀ d : List (String × α), dictGet (dictUpdate d e) f = some t := by
  induction e with
  | nil => simp [dictGet] at h
  | cons p e' ih =>
    intro d
    obtain ⟨k, v⟩ := p
    simp only [List.map_cons, List.nodup_cons] at hnodup
    by_cases h1 : k = f
    · subst h1
      have hv : v = t := by simpa [dictGet] using h
      subst hv
      show dictGet (dictUpdate (dictSet d k v) e') k = some v
      rw [dictGet_dictUpdate_not_mem e' k hnodup.1, dictGet_dictSet_self]
    · simp only [dictGet, if_neg h1] at h
      exact ih hnodup.2 h (dictSet d k v)

/-! ## Lemmas about class lookup and world mutation -/

theorem find?_map_name (l : List ClassDef) (u : ClassDef → ClassDef)
    (hname : ∀ c, (u c).name = c.name) (n : String) :
    (l.map u).find? (fun c => c.name = n) = (l.find? (fun c => c.name = n)).map u := by
  induction l with
  | nil => rfl
  | cons c rest ih =>
    simp only [List.map_cons, List.find?_cons]
    by_cases h : c.name = n
    · simp [hname, h]
    · simp [hname, h, ih]

theorem findClass_some_name (w : World) (n : String) (c : ClassDef)
    (h : findClass w n = some c) : c.name = n := by
  have := List.find?_some h
  simpa using this

theorem findClass_writeAnns_user (w : World) (b : String)
    (d : List (String × TypeExpr)) (n : String) :
    findClass (writeAnns w (.user b) d) n =
      (findClass w n).map (fun c => if c.name = b then { c with anns := some d } else c) := by
  show (w.classes.map _).find? _ = _
  rw [find?_map_name w.classes _ (fun c => by by_cases h : c.name = b <;> simp [h]) n]
  rfl

theorem findClass_writeAnns_sm (w : World) (d : List (String × TypeExpr)) (n : String) :
    findClass (writeAnns w .schemaModel d) n = findClass w n := rfl

theorem findClass_writeAnns_ne (w : World) (b : String)
    (d : List (String × TypeExpr)) (n : String) (h : n ≠ b) :
    findClass (writeAnns w (.user b) d) n = findClass w n := by
  rw [findClass_writeAnns_user]
  cases hf : findClass w n with
  | none => rfl
  | some c =>
    have hc := findClass_some_name w n c hf
    simp [hc, h]

theorem findClass_writeAnns_self (w : World) (b : String)
    (d : List (String × TypeExpr)) (c : ClassDef) (h : findClass w b = some c) :
    findClass (writeAnns w (.user b) d) b = some { c with anns := some d } := by
  rw [findClass_writeAnns_user, h]
  simp [findClass_some_name w b c h]

theorem findClass_setCache (w : World) (cn : String) (s : DataFrameSchema) (n : String) :
    findClass (setCache w cn s) n = findClass w n := rfl

/-- What `resolveAnns` tells us about the location it returns. -/
theorem resolveAnns_spec (w : World) :
    ∀ (mro : List String) (loc : AnnLoc) (d : List (String × TypeExpr)),
    resolveAnns w mro = (loc, d) →
    (loc = .schemaModel → d = w.schemaModelAnns) ∧
    (∀ n, loc = .user n → ∃ c, findClass w n = some c ∧ c.anns = some d) := by
  intro mro
  induction mro with
  | nil =>
    intro loc d h
    simp only [resolveAnns] at h
    cases h
    exact ⟨fun _ => rfl, fun n hn => by cases hn⟩
  | cons n rest ih =>
    intro loc d h
    simp only [resolveAnns] at h
    cases hf : findClass w n with
    | none =>
      simp only [hf] at h
      exact ih loc d h
    | some c =>
      simp only [hf] at h
      cases ha : c.anns with
      | none =>
        simp only [ha] at h
        exact ih loc d h
      | some d0 =>
        simp only [ha, Prod.mk.injEq] at h
        obtain ⟨h1, h2⟩ := h
        subst h1
        subst h2
        exact ⟨fun hc => (nomatch hc), fun m hm => by cases hm; exact ⟨c, hf, ha⟩⟩

theorem mem_protectedNames_underscored (w : World) (mro : List String) (n : String)
    (h : n ∈ protectedNames w mro) : underscored n = true :=
  (List.mem_filter.mp h).2

theorem protectedNames_ne (w : World) (mro : List String) (n f : String)
    (hn : n ∈ protectedNames w mro) (hf : underscored f = false) : n ≠ f := by
  intro h
  rw [← h] at hf
  rw [mem_protectedNames_underscored w mro n hn] at hf
  exact Bool.noConfusion hf

/-! ## The compilation frame: what a run may and may not change -/

theorem AnnFrame.refl (w : World) : AnnFrame w w :=
  ⟨fun _ => Eq.refl _, fun _ => Eq.refl _, fun _ => Eq.refl _, Eq.refl _,
   fun _ _ _ => Eq.refl _, fun _ _ => Eq.refl _⟩

theorem AnnFrame.trans {w1 w2 w3 : World}
    (a : AnnFrame w1 w2) (b : AnnFrame w2 w3) : AnnFrame w1 w3 := by
  obtain ⟨a1, a2, a3, a4, a5, a6⟩ := a
  obtain ⟨b1, b2, b3, b4, b5, b6⟩ := b
  exact ⟨fun n => (b1 n).trans (a1 n), fun n => (b2 n).trans (a2 n),
    fun n => (b3 n).trans (a3 n), b4.trans a4,
    fun n f hf => (b5 n f hf).trans (a5 n f hf),
    fun f hf => (b6 f hf).trans (a6 f hf)⟩

theorem annFrame_writeAnns_sm (w : World) (anns : List (String × TypeExpr))
    (hanns : ∀ f, underscored f = false →
      dictGet anns f = dictGet w.schemaModelAnns f) :
    AnnFrame w (writeAnns w .schemaModel anns) :=
  ⟨fun _ => Eq.refl _, fun _ => Eq.refl _, fun _ => Eq.refl _, Eq.refl _,
   fun _ _ _ => Eq.refl _, hanns⟩

theorem annFrame_writeAnns_user (w : World) (b : String)
    (anns0 anns1 : List (String × TypeExpr)) (c0 : ClassDef)
    (hb : findClass w b = some c0) (ha0 : c0.anns = some anns0)
    (hanns : ∀ f, underscored f = false → dictGet anns1 f = dictGet anns0 f) :
    AnnFrame w (writeAnns w (.user b) anns1) := by
  refine ⟨?_, ?_, ?_, Eq.refl _, ?_, fun _ _ => Eq.refl _⟩
  · intro n
    rw [findClass_writeAnns_user]
    cases findClass w n with
    | none => rfl
    | some c => by_cases h : c.name = b <;> simp [h]
  · intro n
    rw [findClass_writeAnns_user]
    cases findClass w n with
    | none => rfl
    | some c => by_cases h : c.name = b <;> simp [h]
  · intro n
    rw [findClass_writeAnns_user]
    cases findClass w n with
    | none => rfl
    | some c => by_cases h : c.name = b <;> simp [h]
  · intro n f hf
    unfold annGet
    rw [findClass_writeAnns_user]
    cases hfc : findClass w n with
    | none => rfl
    | some c =>
      have hcn : c.name = n := findClass_some_name w n c hfc
      by_cases hnb : n = b
      · subst hnb
        have hcc : c = c0 := by rw [hb] at hfc; exact (Option.some.injEq .. ▸ hfc).symm ▸ rfl
        subst hcc
        simp [hcn, ha0]
        exact hanns f hf
      · simp [hcn, hnb]

theorem annFrame_getFieldAnns (w : World) (cname : String) :
    AnnFrame w (_get_field_annotations w cname).1 := by
  unfold _get_field_annotations
  cases hfc : findClass w cname with
  | none => exact AnnFrame.refl w
  | some cls =>
    cases hr : resolveAnns w cls.mro with
    | mk loc anns =>
      by_cases he : anns.isEmpty
      · simp only [hr, he]
        exact AnnFrame.refl w
      · simp only [hr, he]
        have hspec := resolveAnns_spec w cls.mro loc anns hr
        have hpops : ∀ f, underscored f = false →
            dictGet ((protectedNames w cls.mro).foldl dictPop anns) f = dictGet anns f := by
          intro f hf
          exact dictGet_foldl_dictPop_ne (protectedNames w cls.mro) f
            (fun n hn => protectedNames_ne w cls.mro n f hn hf) anns
        cases loc with
        | schemaModel =>
          have hd : anns = w.schemaModelAnns := hspec.1 rfl
          simp only [Bool.false_eq_true, if_false]
          exact annFrame_writeAnns_sm w _
            (fun f hf => by rw [hpops f hf, hd])
        | user b =>
          obtain ⟨c0, hb, ha0⟩ := hspec.2 b rfl
          simp only [Bool.false_eq_true, if_false]
          exact annFrame_writeAnns_user w b anns _ c0 hb ha0 hpops

theorem annFrame_inheritLoop :
    ∀ (bases : List String) (w : World) (acc : List (String × TypeExpr)),
    AnnFrame w (inheritLoop w bases acc).1 := by
  intro bases
  induction bases with
  | nil => intro w acc; exact AnnFrame.refl w
  | cons b rest ih =>
    intro w acc
    have hstep := annFrame_getFieldAnns w b
    unfold inheritLoop
    cases hg : _get_field_annotations w b with
    | mk w1 r =>
      rw [hg] at hstep
      cases r with
      | ok banns => exact hstep.trans (ih w1 (dictUpdate acc banns))
      | error e => exact hstep

/-- Destructuring `compileAndCache`: any run passes through a world related
to the initial one by `AnnFrame`; a successful run additionally writes the
produced schema into the declaring class's cache slot, and nothing else. -/
theorem compileAndCache_parts (w : World) (cname : String) (cls : ClassDef)
    (w' : World) (r : Except Err DataFrameSchema)
    (h : compileAndCache w cname cls = (w', r)) :
    ∃ w1, AnnFrame w w1 ∧
      ((w' = w1 ∧ ∃ e, r = .error e) ∨
       (∃ s, r = .ok s ∧ w' = setCache w1 cname s)) := by
  unfold compileAndCache at h
  have hframe := annFrame_inheritLoop cls.mro.reverse w []
  cases hg : _inherit_field_annotations w cls with
  | mk w1 r1 =>
    have hw1 : (inheritLoop w cls.mro.reverse []).1 = w1 := by
      rw [show inheritLoop w cls.mro.reverse [] = _inherit_field_annotations w cls from Eq.refl _, hg]
    rw [hw1] at hframe
    rw [hg] at h
    refine ⟨w1, hframe, ?_⟩
    cases r1 with
    | error e =>
      simp only at h
      cases h
      exact Or.inl ⟨Eq.refl _, e, Eq.refl _⟩
    | ok annotations =>
      simp only at h
      cases hu : updateChecksAll (functionMembers w1 cls.mro) (annotations.map Prod.fst) [] with
      | error e =>
        simp only [hu] at h
        cases h
        exact Or.inl ⟨Eq.refl _, e, Eq.refl _⟩
      | ok checks =>
        simp only [hu] at h
        cases hb : _build_columns_index w1 cls.mro checks annotations with
        | error e =>
          simp only [hb] at h
          cases h
          exact Or.inl ⟨Eq.refl _, e, Eq.refl _⟩
        | ok ci =>
          obtain ⟨columns, index⟩ := ci
          simp only [hb] at h
          cases h
          exact Or.inr ⟨_, Eq.refl _, Eq.refl _⟩

/-! ## Claim theorems -/

/-- C1.  For every schema-model class whose compilation succeeds, a second
`to_schema()` call returns the identical schema object the first call
returned, without recomputation: the first successful call caches the schema
on the declaring class, and the second call takes the cache-hit branch,
leaving the world untouched and returning the cached object.  (`hmro`
states the well-formedness fact, guaranteed by Python, that a class's MRO
starts with the class itself.) -/
theorem to_schema_idempotent (w : World) (cname : String) (cls : ClassDef)
    (hfind : findClass w cname = some cls) (hmro : ∃ tl, cls.mro = cname :: tl)
    (w' : World) (s : DataFrameSchema)
    (h : to_schema w cname = (w', .ok s)) :
    to_schema w' cname = (w', .ok s) := by
  obtain ⟨tl, hmro⟩ := hmro
  unfold to_schema at h
  simp only [hfind] at h
  cases hc : cacheLookup w cls.mro with
  | some s0 =>
    simp only [hc] at h
    cases h
    unfold to_schema
    simp only [hfind, hc]
  | none =>
    simp only [hc] at h
    obtain ⟨w1, hframe, hcase⟩ := compileAndCache_parts w cname cls w' (.ok s) h
    cases hcase with
    | inl hbad => obtain ⟨_, e, he⟩ := hbad; cases he
    | inr hgood =>
      obtain ⟨s2, hs2, hw'⟩ := hgood
      cases hs2
      subst hw'
      have hname := hframe.1 cname
      rw [hfind] at hname
      obtain ⟨cls1, hcls1, -⟩ := Option.map_eq_some'.mp hname
      have hmro1 := hframe.2.1 cname
      rw [hfind, hcls1] at hmro1
      have hmro1' : cls1.mro = cls.mro := by
        simpa using hmro1
      unfold to_schema
      have hcl : cacheLookup (setCache w1 cname s) cls1.mro = some s := by
        rw [hmro1', hmro]
        unfold cacheLookup
        rw [show (setCache w1 cname s).caches = dictSet w1.caches cname s from Eq.refl _,
          dictGet_dictSet_self]
      simp only [show findClass (setCache w1 cname s) cname = some cls1 from hcls1, hcl]

/-- C1 witness: the idempotence theorem applied to the concrete class
`class A(SchemaModel): a: Series[int]`, whose first compilation produces
`exS1` and the cache write `exW1 ↦ exW1'`. -/
theorem to_schema_idempotent_witness :
    to_schema exW1' "A" = (exW1', .ok exS1) :=
  to_schema_idempotent exW1 "A" exCls1 (by rfl) ⟨[], by rfl⟩ exW1' exS1 (by rfl)

/-! ## Membership facts about `_regex_filter` -/

theorem mem_listUnion (x : String) :
    ∀ (b a : List String), x ∈ listUnion a b ↔ x ∈ a ∨ x ∈ b := by
  intro b
  induction b with
  | nil => intro a; simp [listUnion]
  | cons y b' ih =>
    intro a
    show x ∈ listUnion (if y ∈ a then a else a ++ [y]) b' ↔ _
    rw [ih]
    by_cases hy : y ∈ a
    · simp only [if_pos hy, List.mem_cons]
      constructor
      · rintro (h | h)
        · exact Or.inl h
        · exact Or.inr (Or.inr h)
      · rintro (h | h | h)
        · exact Or.inl h
        · exact Or.inl (h ▸ hy)
        · exact Or.inr h
    · simp only [if_neg hy, List.mem_append, List.mem_singleton, List.mem_cons]
      tauto

theorem mem_regex_filter_aux (seq : List String) (f : String) :
    ∀ (pats acc : List String),
    f ∈ pats.foldl
        (fun matched regex => listUnion matched (seq.filter (fun s => reMatch regex s)))
        acc
      ↔ f ∈ acc ∨ (f ∈ seq ∧ ∃ p ∈ pats, reMatch p f = true) := by
  intro pats
  induction pats with
  | nil => intro acc; simp
  | cons r pats ih =>
    intro acc
    rw [List.foldl_cons, ih, mem_listUnion]
    simp only [List.mem_filter, List.mem_cons]
    constructor
    · rintro ((h | ⟨h1, h2⟩) | ⟨h1, p, hp, hm⟩)
      · exact Or.inl h
      · exact Or.inr ⟨h1, r, Or.inl rfl, h2⟩
      · exact Or.inr ⟨h1, p, Or.inr hp, hm⟩
    · rintro (h | ⟨h1, p, (hp | hp), hm⟩)
      · exact Or.inl (Or.inl h)
      · exact Or.inl (Or.inr ⟨h1, hp ▸ hm⟩)
      · exact Or.inr ⟨h1, p, hp, hm⟩

theorem mem_regex_filter (seq pats : List String) (f : String) :
    f ∈ _regex_filter seq pats ↔ (f ∈ seq ∧ ∃ p ∈ pats, reMatch p f = true) := by
  unfold _regex_filter
  rw [mem_regex_filter_aux]
  simp

theorem updChecksLoop_err (fnName : String) (check : Check) (fields : List String) :
    ∀ (targets : List String) (checks : ChecksMap),
    (∃ f, f ∈ targets ∧ f ∉ fields) →
    ∃ g, g ∉ fields ∧
      updChecksLoop fnName check fields checks targets
        = .error (.validatorNonExistingField fnName g) := by
  intro targets
  induction targets with
  | nil =>
    intro checks h
    obtain ⟨f, hf, -⟩ := h
    cases hf
  | cons t rest ih =>
    intro checks h
    by_cases ht : t ∈ fields
    · obtain ⟨f, hf, hnf⟩ := h
      have hf' : f ∈ rest := by
        cases List.mem_cons.mp hf with
        | inl he => exact absurd (he ▸ ht) hnf
        | inr hm => exact hm
      have hrec := ih (appendCheck checks t check) ⟨f, hf', hnf⟩
      simpa [updChecksLoop, ht] using hrec
    · exact ⟨t, ht, by simp [updChecksLoop, ht]⟩

/-- C2.  Validator target resolution: (1) under the regex flag the target
field set is exactly the union, over all supplied patterns, of the known
field names matched by prefix-anchored, case-sensitive matching; (2) on the
spec's example, pattern `a.*` against known fields `abc, xyz` resolves
exactly `abc` (and matching is genuinely prefix-anchored and
case-sensitive: `b` does not match `abc`, `A.*` does not match `abc`);
(3) whenever some resolved target is not a known field, `_update_checks`
raises the declaration error naming the validating method and an unknown
field; (4) concretely, compiling a class whose validator is bound to the
unmatched literal name `zzz` fails with that error. -/
theorem validator_resolution :
    (∀ (fields : List String) (vc : ValidatorConfig) (f : String), vc.regex = true →
      (f ∈ resolvedTargets vc fields ↔ f ∈ fields ∧ ∃ p ∈ vc.fields, reMatch p f = true))
    ∧ (_regex_filter ["abc", "xyz"] ["a.*"] = ["abc"]
        ∧ reMatch "b" "abc" = false ∧ reMatch "ab" "abc" = true
        ∧ reMatch "A.*" "abc" = false)
    ∧ (∀ (checks : ChecksMap) (fnName : String) (vc : ValidatorConfig)
        (fields : List String),
        (∃ f, f ∈ resolvedTargets vc fields ∧ f ∉ fields) →
        ∃ g, g ∉ fields ∧
          _update_checks checks fnName (some vc) fields
            = .error (.validatorNonExistingField fnName g))
    ∧ (to_schema exW2 "V").2 = .error (.validatorNonExistingField "check_missing" "zzz") := by
  refine ⟨?_, ⟨rfl, rfl, rfl, rfl⟩, ?_, rfl⟩
  · intro fields vc f hr
    rw [resolvedTargets, if_pos hr]
    exact mem_regex_filter fields vc.fields f
  · intro checks fnName vc fields h
    exact updChecksLoop_err fnName vc.check fields (resolvedTargets vc fields) checks h

/-- C2 witness: resolution applied at concrete inputs — the regex
characterisation at pattern set `["a.*"]` over fields `["abc", "xyz"]`, and
the declaration error for the literal binding to `"zzz"` over fields
`["a"]`. -/
theorem validator_resolution_witness :
    ("abc" ∈ resolvedTargets { fields := ["a.*"], regex := true, check := .custom "c" }
        ["abc", "xyz"]
      ↔ "abc" ∈ ["abc", "xyz"] ∧ ∃ p ∈ ["a.*"], reMatch p "abc" = true)
    ∧ (∃ g, g ∉ ["a"] ∧
        _update_checks [] "check_missing" (some vcMissing) ["a"]
          = .error (.validatorNonExistingField "check_missing" g)) :=
  ⟨validator_resolution.1 ["abc", "xyz"]
      { fields := ["a.*"], regex := true, check := .custom "c" } "abc" rfl,
   validator_resolution.2.2.1 [] "check_missing" vcMissing ["a"]
      ⟨"zzz", by decide, by decide⟩⟩

/-- C4.  Index composition: zero produced index entries give a schema with
no index; exactly one is used directly with its name cleared; two or more
are wrapped into a `MultiIndex` preserving order with individual names
kept.  Lifted to whole compilations: a schema-model class with no index
annotation compiles to a schema without index, one with a single `Index`
annotation to a schema with one unnamed index, and one with two `Index`
annotations to a composite index keeping both names in declaration
order. -/
theorem build_schema_index_spec :
    _build_schema_index [] = none
    ∧ (∀ i, _build_schema_index [i] = some (.single { i with name := none }))
    ∧ (∀ i j rest, _build_schema_index (i :: j :: rest) = some (.multi (i :: j :: rest)))
    ∧ (to_schema exW1 "A").2 = .ok exS1
    ∧ (to_schema exW4 "I4").2 = .ok exS4
    ∧ (to_schema exW4b "I4b").2 = .ok exS4b :=
  ⟨rfl, fun _ => rfl, fun _ _ _ => rfl, rfl, rfl, rfl⟩

/-- C9.  `Field()` with every constraint parameter absent and every policy
flag at its default raises nothing (the function is total) and produces a
descriptor with an empty check list, `nullable=False`,
`allow_duplicates=True`, `coerce=False` and `regex=False`. -/
theorem field_defaults :
    Field {} = FieldInfo.mk [] false true false false := rfl

/-- C10.  A field that has a descriptor and receives validator-contributed
checks compiles to a column or index whose check list is the descriptor's
own checks followed by the stacked validator checks, in that order: the
component constructors concatenate `self.checks + checks`, and
`_build_columns_index` passes the stacked checks as the second operand. -/
theorem descriptor_checks_precede :
    (∀ fi dtype checks required name,
      (FieldInfo.to_column fi dtype checks required name).checks
        = fi.checks ++ _to_checklist checks)
    ∧ (∀ fi dtype checks name,
      (FieldInfo.to_index fi dtype checks name).checks
        = fi.checks ++ _to_checklist checks)
    ∧ (∀ (w : World) (mro : List String) (checksMap : ChecksMap) (f : String)
        (d : TypeExpr) (fi : FieldInfo),
        getattrVal w mro f = some (.fieldinfo fi) →
        ∃ c, processEntry w mro checksMap f (.series d) = .ok (.col f c)
          ∧ c.checks = fi.checks ++ (dictGet checksMap f).getD [])
    ∧ (∀ (w : World) (mro : List String) (checksMap : ChecksMap) (f : String)
        (d : TypeExpr) (fi : FieldInfo),
        getattrVal w mro f = some (.fieldinfo fi) →
        ∃ i, processEntry w mro checksMap f (.index d) = .ok (.idx i)
          ∧ i.checks = fi.checks ++ (dictGet checksMap f).getD []) := by
  refine ⟨fun _ _ _ _ _ => rfl, fun _ _ _ _ => rfl, ?_, ?_⟩
  · intro w mro checksMap f d fi h
    refine ⟨fi.to_column d (some (.many ((dictGet checksMap f).getD []))) true (some f),
      ?_, rfl⟩
    simp only [processEntry, h]
    rfl
  · intro w mro checksMap f d fi h
    refine ⟨fi.to_index d (some (.many ((dictGet checksMap f).getD []))) (some f),
      ?_, rfl⟩
    simp only [processEntry, h]
    rfl

/-- C10 witness: a descriptor with one check and one stacked validator
check on a `Series[int]` field — the compiled column's check list is the
descriptor's check followed by the validator's. -/
theorem descriptor_checks_precede_witness :
    ∃ c, processEntry exW10 ["A10"]
        [("a", [Check.custom "v"])] "a" (.series (.base "int")) = .ok (.col "a" c)
      ∧ c.checks = exFI10.checks ++ (dictGet [("a", [Check.custom "v"])] "a").getD [] :=
  descriptor_checks_precede.2.2.1 exW10 ["A10"] [("a", [Check.custom "v"])] "a"
    (.base "int") exFI10 (by rfl)

/-- C3.  Optionality handling, for a field whose bound class attribute (if
any) is legal (absent, falsy, or a `FieldInfo` — hypothesis `hok`, without
which the attribute type check fails first): an `Optional[Index[...]]`
annotation fails with the `cannot be Optional` declaration error; an
`Optional[Series[...]]` annotation compiles to a column with
`required = False`; a plain `Series[...]` annotation compiles to a column
with `required = True`.  Lifted to whole compilations: a class declaring
`i: Optional[Index[int]]` fails with that error, and a class declaring
`a: Series[int]; b: Optional[Series[str]]` compiles to columns with
`required` `True` and `False` respectively. -/
theorem optional_handling (w : World) (mro : List String) (checks : ChecksMap)
    (f : String) (d : TypeExpr)
    (hok : ((getattrVal w mro f).map (fun v => v.isTruthy && !v.isFieldInfoB)).getD false
      = false) :
    processEntry w mro checks f (.optional (.index d)) = .error (.indexCannotBeOptional f)
    ∧ (∃ c, processEntry w mro checks f (.optional (.series d)) = .ok (.col f c)
        ∧ c.required = false)
    ∧ (∃ c, processEntry w mro checks f (.series d) = .ok (.col f c)
        ∧ c.required = true)
    ∧ (to_schema exW3 "O3").2 = .error (.indexCannotBeOptional "i")
    ∧ (to_schema exW3b "O3b").2 = .ok exS3b := by
  refine ⟨?_, ?_, ?_, rfl, rfl⟩
  · simp only [processEntry]
    rw [hok]
    rfl
  · simp only [processEntry]
    rw [hok]
    refine ⟨_, rfl, ?_⟩
    cases hv : getattrVal w mro f with
    | none => rfl
    | some v =>
      cases v with
      | fieldinfo fi => rfl
      | method vc => simp [hv, Value.isTruthy, Value.isFieldInfoB] at hok
      | other cn t => rfl
  · simp only [processEntry]
    rw [hok]
    refine ⟨_, rfl, ?_⟩
    cases hv : getattrVal w mro f with
    | none => rfl
    | some v =>
      cases v with
      | fieldinfo fi => rfl
      | method vc => simp [hv, Value.isTruthy, Value.isFieldInfoB] at hok
      | other cn t => rfl

/-- C3 witness: the optionality rules at a concrete field name with no bound
class attribute. -/
theorem optional_handling_witness :
    processEntry exW1 ["A"] [] "x" (.optional (.index (.base "int")))
      = .error (.indexCannotBeOptional "x")
    ∧ (∃ c, processEntry exW1 ["A"] [] "x" (.optional (.series (.base "int")))
        = .ok (.col "x" c) ∧ c.required = false)
    ∧ (∃ c, processEntry exW1 ["A"] [] "x" (.series (.base "int"))
        = .ok (.col "x" c) ∧ c.required = true)
    ∧ (to_schema exW3 "O3").2 = .error (.indexCannotBeOptional "i")
    ∧ (to_schema exW3b "O3b").2 = .ok exS3b :=
  optional_handling exW1 ["A"] [] "x" (.base "int") (by rfl)

/-- C6 counterexample: `Child` participates in the walked chain and
declares no field annotations of its own, yet `Child.to_schema()` succeeds —
`cls.__annotations__` falls back to `Parent`'s dict, so the
`is not annotated` check never fires. -/
theorem no_own_anns_compiles :
    exClsChild.anns = none ∧ (to_schema exW6 "Child").2 = .ok exS6 :=
  ⟨rfl, rfl⟩

/-- C6 amended.  `_get_field_annotations` raises the `is not annotated`
declaration error exactly when the annotation lookup — which falls back
along the MRO to the nearest ancestor owning an annotations dict, and
ultimately to the schema-model base's own dict — resolves to an empty map;
in particular a participating class with no own annotations map simply
resolves to its ancestors' map (second conjunct) and does not fail. -/
theorem not_annotated_error_iff (w : World) (cname : String) (cls : ClassDef)
    (hfind : findClass w cname = some cls) :
    ((_get_field_annotations w cname).2 = .error (.notAnnotated cname)
      ↔ (resolveAnns w cls.mro).2 = [])
    ∧ (cls.anns = none → ∀ rest, cls.mro = cname :: rest →
        resolveAnns w cls.mro = resolveAnns w rest) := by
  constructor
  · unfold _get_field_annotations
    simp only [hfind]
    cases hr : resolveAnns w cls.mro with
    | mk loc anns =>
      by_cases he : anns.isEmpty
      · simp only [he]
        have : anns = [] := by
          cases anns with
          | nil => rfl
          | cons a l => simp [List.isEmpty] at he
        simp [this]
      · simp only [he]
        have : anns ≠ [] := by
          intro hh
          rw [hh] at he
          exact he (by rfl)
        simp only [Bool.false_eq_true, if_false]
        constructor
        · intro hh
          exact absurd hh (by simp)
        · intro hh
          exact absurd hh this
  · intro ha rest hmro
    rw [hmro]
    show (match findClass w cname with
      | none => resolveAnns w rest
      | some c =>
        match c.anns with
        | some d => (AnnLoc.user cname, d)
        | none => resolveAnns w rest) = resolveAnns w rest
    simp [hfind, ha]

/-- C6 amended witness: the iff applied to the concrete `Child` class,
whose inherited map is `Parent`'s nonempty dict, so no error is raised. -/
theorem not_annotated_error_iff_witness :
    (((_get_field_annotations exW6 "Child").2 = .error (.notAnnotated "Child")
      ↔ (resolveAnns exW6 exClsChild.mro).2 = [])
    ∧ (exClsChild.anns = none → ∀ rest, exClsChild.mro = "Child" :: rest →
        resolveAnns exW6 exClsChild.mro = resolveAnns exW6 rest)) :=
  not_annotated_error_iff exW6 "Child" exClsChild (by rfl)

/-- C7 counterexample: the field name `a` is bound to a class attribute
that exists and is not a `FieldInfo` (`a: Series[int] = 0`), yet
compilation succeeds — the source tests `if field and not isinstance(...)`,
so a falsy attribute skips the check entirely. -/
theorem falsy_field_attr_compiles :
    getattrVal exW7 ["M"] "a" = some (.other "int" false)
    ∧ (Value.other "int" false).isFieldInfoB = false
    ∧ (to_schema exW7 "M").2 = .ok exS7 :=
  ⟨rfl, rfl, rfl⟩

/-- C7 amended.  A class attribute bound to the field name that is truthy
and not a `FieldInfo` fails compilation with the declaration error naming
the field and the value's class (for both container shapes); a falsy
non-`FieldInfo` attribute is treated as absent and a bare component is
built. -/
theorem field_attr_type_check (w : World) (mro : List String) (checks : ChecksMap)
    (f : String) (d : TypeExpr) :
    (∀ v, getattrVal w mro f = some v → v.isTruthy = true → v.isFieldInfoB = false →
      processEntry w mro checks f (.series d)
          = .error (.notAFieldAssignment f v.valueClsName)
        ∧ processEntry w mro checks f (.index d)
          = .error (.notAFieldAssignment f v.valueClsName))
    ∧ (∀ cn, getattrVal w mro f = some (.other cn false) →
      processEntry w mro checks f (.series d)
        = .ok (.col f (bareColumn d true ((dictGet checks f).getD []) (some f))))
    ∧ (∀ cn, getattrVal w mro f = some (.other cn false) →
      processEntry w mro checks f (.index d)
        = .ok (.idx (bareIndex d ((dictGet checks f).getD []) (some f)))) := by
  refine ⟨?_, ?_, ?_⟩
  · intro v hv ht hnf
    constructor
    · simp [processEntry, hv, ht, hnf, is_optional_type, get_first_arg]
    · simp [processEntry, hv, ht, hnf, is_optional_type, get_first_arg]
  · intro cn hv
    simp [processEntry, hv, Value.isTruthy, Value.isFieldInfoB, is_optional_type,
      get_first_arg, get_origin]
  · intro cn hv
    simp [processEntry, hv, Value.isTruthy, Value.isFieldInfoB, is_optional_type,
      get_first_arg, get_origin]

/-- C7 amended witness: the truthy case errors for both container shapes
(`a: Series[int] = 1`, `a: Index[int] = 1`), the falsy case builds a bare
column (`a: Series[int] = 0`) and a bare index (`a: Index[int] = 0`). -/
theorem field_attr_type_check_witness :
    (processEntry exW7b ["Mb"] [] "a" (.series (.base "int"))
        = .error (.notAFieldAssignment "a" (Value.other "int" true).valueClsName)
      ∧ processEntry exW7b ["Mb"] [] "a" (.index (.base "int"))
        = .error (.notAFieldAssignment "a" (Value.other "int" true).valueClsName))
    ∧ processEntry exW7 ["M"] [] "a" (.series (.base "int"))
      = .ok (.col "a" (bareColumn (.base "int") true
          ((dictGet ([] : ChecksMap) "a").getD []) (some "a")))
    ∧ processEntry exW7 ["M"] [] "a" (.index (.base "int"))
      = .ok (.idx (bareIndex (.base "int")
          ((dictGet ([] : ChecksMap) "a").getD []) (some "a"))) :=
  ⟨(field_attr_type_check exW7b ["Mb"] [] "a" (.base "int")).1
      (.other "int" true) (by rfl) rfl rfl,
   (field_attr_type_check exW7 ["M"] [] "a" (.base "int")).2.1 "int" (by rfl),
   (field_attr_type_check exW7 ["M"] [] "a" (.base "int")).2.2 "int" (by rfl)⟩

/-- C8 counterexample: compiling `A8` succeeds and, besides the cache
write, removes the protected entry `_x` from the class's own annotations
map — an externally observable mutation of class metadata beyond the cache
write. -/
theorem compile_mutates_class_metadata :
    (to_schema exW8 "A8").2 = .ok exS8
    ∧ (findClass (to_schema exW8 "A8").1 "A8").map ClassDef.anns
        = some (some [("a", .series (.base "int"))])
    ∧ (findClass exW8 "A8").map ClassDef.anns
        = some (some [("_x", .base "int"), ("a", .series (.base "int"))])
    ∧ (findClass (to_schema exW8 "A8").1 "A8").map ClassDef.anns
        ≠ (findClass exW8 "A8").map ClassDef.anns :=
  ⟨rfl, rfl, rfl, by decide⟩

/-- C8 amended.  A compilation run (successful or failing) leaves every
class's name, MRO and class-body dict unchanged; it changes caches only by
writing the produced schema onto the declaring class (and only on
success); and the only annotation-map change it can make is the removal of
underscore-prefixed entries — every non-underscore annotation entry of
every class, and of the schema-model base, is preserved. -/
theorem compile_frame (w : World) (cname : String) (w' : World)
    (r : Except Err DataFrameSchema) (h : to_schema w cname = (w', r)) :
    (∀ n, (findClass w' n).map ClassDef.name = (findClass w n).map ClassDef.name)
    ∧ (∀ n, (findClass w' n).map ClassDef.mro = (findClass w n).map ClassDef.mro)
    ∧ (∀ n, (findClass w' n).map ClassDef.dict = (findClass w n).map ClassDef.dict)
    ∧ (w'.caches = w.caches ∨ ∃ s, r = .ok s ∧ w'.caches = dictSet w.caches cname s)
    ∧ (∀ n f, underscored f = false → annGet w' n f = annGet w n f)
    ∧ (∀ f, underscored f = false →
        dictGet w'.schemaModelAnns f = dictGet w.schemaModelAnns f) := by
  unfold to_schema at h
  cases hfc : findClass w cname with
  | none =>
    simp only [hfc] at h
    cases h
    exact ⟨fun _ => rfl, fun _ => rfl, fun _ => rfl, Or.inl rfl,
      fun _ _ _ => rfl, fun _ _ => rfl⟩
  | some cls =>
    simp only [hfc] at h
    cases hc : cacheLookup w cls.mro with
    | some s0 =>
      simp only [hc] at h
      cases h
      exact ⟨fun _ => rfl, fun _ => rfl, fun _ => rfl, Or.inl rfl,
        fun _ _ _ => rfl, fun _ _ => rfl⟩
    | none =>
      simp only [hc] at h
      obtain ⟨w1, hframe, hcase⟩ := compileAndCache_parts w cname cls w' r h
      obtain ⟨f1, f2, f3, f4, f5, f6⟩ := hframe
      cases hcase with
      | inl hleft =>
        obtain ⟨hw, e, he⟩ := hleft
        subst hw
        exact ⟨f1, f2, f3, Or.inl f4, f5, f6⟩
      | inr hright =>
        obtain ⟨s, hs, hw⟩ := hright
        subst hw
        refine ⟨f1, f2, f3, Or.inr ⟨s, hs, ?_⟩, f5, f6⟩
        show (setCache w1 cname s).caches = dictSet w.caches cname s
        rw [show (setCache w1 cname s).caches = dictSet w1.caches cname s from Eq.refl _, f4]

/-- C8 amended witness: the frame theorem applied to the concrete `A8`
compilation run. -/
theorem compile_frame_witness :
    (∀ n, (findClass exW8' n).map ClassDef.name = (findClass exW8 n).map ClassDef.name)
    ∧ (∀ n, (findClass exW8' n).map ClassDef.mro = (findClass exW8 n).map ClassDef.mro)
    ∧ (∀ n, (findClass exW8' n).map ClassDef.dict = (findClass exW8 n).map ClassDef.dict)
    ∧ (exW8'.caches = exW8.caches
        ∨ ∃ s, (Except.ok s : Except Err DataFrameSchema) = .ok exS8
            ∧ exW8'.caches = dictSet exW8.caches "A8" s)
    ∧ (∀ n f, underscored f = false → annGet exW8' n f = annGet exW8 n f)
    ∧ (∀ f, underscored f = false →
        dictGet exW8'.schemaModelAnns f = dictGet exW8.schemaModelAnns f) := by
  have h := compile_frame exW8 "A8" exW8' (.ok exS8) (by rfl)
  obtain ⟨f1, f2, f3, f4, f5, f6⟩ := h
  refine ⟨f1, f2, f3, ?_, f5, f6⟩
  cases f4 with
  | inl hl => exact Or.inl hl
  | inr hr =>
    obtain ⟨s, hs, hc⟩ := hr
    exact Or.inr ⟨s, by rw [hs], hc⟩

/-! ## The annotation-inheritance loop (towards C5) -/

/-- `_get_field_annotations` on a class owning a nonempty annotations dict:
it resolves to the class's own dict, pops the protected member names, and
writes the result back onto the class. -/
theorem getFieldAnns_own (w : World) (b : String) (cb : ClassDef)
    (rest : List String) (D : List (String × TypeExpr))
    (hfind : findClass w b = some cb) (hmro : cb.mro = b :: rest)
    (hanns : cb.anns = some D) (hne : D ≠ []) :
    _get_field_annotations w b =
      (writeAnns w (.user b) ((protectedNames w cb.mro).foldl dictPop D),
       .ok ((protectedNames w cb.mro).foldl dictPop D)) := by
  have hres : resolveAnns w cb.mro = (.user b, D) := by
    rw [hmro]
    show (match findClass w b with
      | none => resolveAnns w rest
      | some c =>
        match c.anns with
        | some d => (AnnLoc.user b, d)
        | none => resolveAnns w rest) = _
    simp [hfind, hanns]
  have hie : D.isEmpty = false := by
    cases D with
    | nil => exact absurd rfl hne
    | cons p D' => rfl
  unfold _get_field_annotations
  simp only [hfind, hres, hie, Bool.false_eq_true, if_false]

/-- Processing a chain of classes that all own nonempty annotation dicts
succeeds and leaves every other class untouched. -/
theorem inheritLoop_pre (pre : List String) :
    ∀ (w : World) (acc : List (String × TypeExpr)),
    pre.Nodup →
    (∀ n ∈ pre, ∃ c, findClass w n = some c ∧ (∃ tl, c.mro = n :: tl)
        ∧ ∃ d, c.anns = some d ∧ d ≠ []) →
    ∃ w1 acc1, inheritLoop w pre acc = (w1, .ok acc1)
      ∧ (∀ n, n ∉ pre → findClass w1 n = findClass w n)
      ∧ w1.schemaModelAnns = w.schemaModelAnns := by
  induction pre with
  | nil =>
    intro w acc _ _
    exact ⟨w, acc, rfl, fun _ _ => rfl, rfl⟩
  | cons b rest ih =>
    intro w acc hnodup hwf
    obtain ⟨cb, hfind, ⟨tl, hmro⟩, D, hanns, hne⟩ := hwf b (List.mem_cons_self b rest)
    have hstep := getFieldAnns_own w b cb tl D hfind hmro hanns hne
    have hbrest : b ∉ rest := (List.nodup_cons.mp hnodup).1
    have hwf2 : ∀ n ∈ rest, ∃ c, findClass (writeAnns w (.user b)
        ((protectedNames w cb.mro).foldl dictPop D)) n = some c
        ∧ (∃ tl, c.mro = n :: tl) ∧ ∃ d, c.anns = some d ∧ d ≠ [] := by
      intro n hn
      have hne' : n ≠ b := fun he => hbrest (he ▸ hn)
      rw [findClass_writeAnns_ne w b _ n hne']
      exact hwf n (List.mem_cons_of_mem b hn)
    obtain ⟨w1, acc1, heq, hpres, hsm⟩ :=
      ih (writeAnns w (.user b) ((protectedNames w cb.mro).foldl dictPop D))
        (dictUpdate acc ((protectedNames w cb.mro).foldl dictPop D))
        (List.nodup_cons.mp hnodup).2 hwf2
    refine ⟨w1, acc1, ?_, ?_, ?_⟩
    · show (match _get_field_annotations w b with
        | (w1, .ok banns) => inheritLoop w1 rest (dictUpdate acc banns)
        | (w1, .error e) => (w1, .error e)) = (w1, .ok acc1)
      rw [hstep]
      exact heq
    · intro n hn
      have hn1 : n ≠ b := fun he => hn (he ▸ List.mem_cons_self b rest)
      have hn2 : n ∉ rest := fun hm => hn (List.mem_cons_of_mem b hm)
      rw [hpres n hn2, findClass_writeAnns_ne w b _ n hn1]
    · exact hsm

/-- Processing classes whose own annotation dicts never mention `f` keeps
the accumulated entry for `f`. -/
theorem inheritLoop_post (post : List String) :
    ∀ (w : World) (acc : List (String × TypeExpr)) (f : String) (t : TypeExpr),
    post.Nodup →
    underscored f = false →
    dictGet acc f = some t →
    (∀ n ∈ post, ∃ c, findClass w n = some c ∧ (∃ tl, c.mro = n :: tl)
        ∧ ∃ d, c.anns = some d ∧ d ≠ [] ∧ dictGet d f = none) →
    ∃ w1 acc1, inheritLoop w post acc = (w1, .ok acc1) ∧ dictGet acc1 f = some t := by
  induction post with
  | nil =>
    intro w acc f t _ _ hacc _
    exact ⟨w, acc, rfl, hacc⟩
  | cons b rest ih =>
    intro w acc f t hnodup hfu hacc hwf
    obtain ⟨cb, hfind, ⟨tl, hmro⟩, D, hanns, hne, hDf⟩ := hwf b (List.mem_cons_self b rest)
    have hstep := getFieldAnns_own w b cb tl D hfind hmro hanns hne
    have hbrest : b ∉ rest := (List.nodup_cons.mp hnodup).1
    have hD1f : dictGet ((protectedNames w cb.mro).foldl dictPop D) f = none := by
      apply dictGet_eq_none_of_not_mem
      intro hmem
      have hsub : List.Sublist (((protectedNames w cb.mro).foldl dictPop D).map Prod.fst)
          (D.map Prod.fst) := (foldl_dictPop_sublist _ D).map Prod.fst
      exact not_mem_of_dictGet_eq_none D f hDf (hsub.mem hmem)
    have hacc2 : dictGet (dictUpdate acc ((protectedNames w cb.mro).foldl dictPop D)) f
        = some t := by
      rw [dictGet_dictUpdate_not_mem _ f (not_mem_of_dictGet_eq_none _ f hD1f), hacc]
    have hwf2 : ∀ n ∈ rest, ∃ c, findClass (writeAnns w (.user b)
        ((protectedNames w cb.mro).foldl dictPop D)) n = some c
        ∧ (∃ tl, c.mro = n :: tl) ∧ ∃ d, c.anns = some d ∧ d ≠ [] ∧ dictGet d f = none := by
      intro n hn
      have hne' : n ≠ b := fun he => hbrest (he ▸ hn)
      rw [findClass_writeAnns_ne w b _ n hne']
      exact hwf n (List.mem_cons_of_mem b hn)
    obtain ⟨w1, acc1, heq, hget⟩ :=
      ih (writeAnns w (.user b) ((protectedNames w cb.mro).foldl dictPop D))
        (dictUpdate acc ((protectedNames w cb.mro).foldl dictPop D)) f t
        (List.nodup_cons.mp hnodup).2 hfu hacc2 hwf2
    refine ⟨w1, acc1, ?_, hget⟩
    show (match _get_field_annotations w b with
      | (w1, .ok banns) => inheritLoop w1 rest (dictUpdate acc banns)
      | (w1, .error e) => (w1, .error e)) = (w1, .ok acc1)
    rw [hstep]
    exact heq

/-- `inheritLoop` splits over list append. -/
theorem inheritLoop_append (l1 : List String) :
    ∀ (w : World) (l2 : List String) (acc : List (String × TypeExpr)),
    inheritLoop w (l1 ++ l2) acc =
      (match inheritLoop w l1 acc with
       | (w1, .ok acc1) => inheritLoop w1 l2 acc1
       | (w1, .error e) => (w1, .error e)) := by
  induction l1 with
  | nil => intro w l2 acc; rfl
  | cons b rest ih =>
    intro w l2 acc
    have hL : inheritLoop w ((b :: rest) ++ l2) acc =
        (match _get_field_annotations w b with
         | (w1, .ok banns) => inheritLoop w1 (rest ++ l2) (dictUpdate acc banns)
         | (w1, .error e) => (w1, .error e)) := rfl
    have hR : inheritLoop w (b :: rest) acc =
        (match _get_field_annotations w b with
         | (w1, .ok banns) => inheritLoop w1 rest (dictUpdate acc banns)
         | (w1, .error e) => (w1, .error e)) := rfl
    rw [hL, hR]
    cases hg : _get_field_annotations w b with
    | mk w1 r =>
      cases r with
      | ok banns => exact ih w1 l2 (dictUpdate acc banns)
      | error e => rfl

/-- C5.  Override-by-name, most-derived-wins: `_inherit_field_annotations`
walks `getmro(cls)[:-2]` in reverse, i.e. most-ancestral-first, merging each
class's annotations with `dict.update`.  For any chain whose reversed
processing order is `pre ++ [dn] ++ post` — arbitrary ancestors `pre`, the
declaring-or-intermediate class `dn` mapping field `f` to type `t`, and the
more-derived classes `post` none of which re-declare `f` — the merged map
gives `f` the type `t` declared by `dn`.  In particular, when a descendant
re-declares an ancestor's field, the descendant's declared type wins.
(The well-formedness hypotheses — each participating class is registered,
its MRO starts with itself, it owns a nonempty annotations dict with
duplicate-free keys, and `f` is not underscore-prefixed — mirror Python
guarantees or the usual shape of a schema-model hierarchy.) -/
theorem inherit_override (w : World) (cls : ClassDef)
    (pre post : List String) (dn : String) (dcls : ClassDef)
    (f : String) (t : TypeExpr) (D : List (String × TypeExpr))
    (hrev : cls.mro.reverse = pre ++ dn :: post)
    (hnodup : (pre ++ dn :: post).Nodup)
    (hpre : ∀ n ∈ pre, ∃ c, findClass w n = some c ∧ (∃ tl, c.mro = n :: tl)
        ∧ ∃ d, c.anns = some d ∧ d ≠ [])
    (hd : findClass w dn = some dcls) (hdmro : ∃ tl, dcls.mro = dn :: tl)
    (hD : dcls.anns = some D) (hDne : D ≠ [])
    (hDf : dictGet D f = some t) (hDnodup : (D.map Prod.fst).Nodup)
    (hpost : ∀ n ∈ post, ∃ c, findClass w n = some c ∧ (∃ tl, c.mro = n :: tl)
        ∧ ∃ d, c.anns = some d ∧ d ≠ [] ∧ dictGet d f = none)
    (hfu : underscored f = false) :
    ∃ w' merged, _inherit_field_annotations w cls = (w', .ok merged)
      ∧ dictGet merged f = some t := by
  obtain ⟨tl, hdmro⟩ := hdmro
  have hsplit := List.nodup_append.mp hnodup
  have hdisj : pre.Disjoint (dn :: post) := hsplit.2.2
  have hdn_pre : dn ∉ pre := fun hm => hdisj hm (List.mem_cons_self dn post)
  obtain ⟨wp, accp, heqp, hpresp, hsmp⟩ :=
    inheritLoop_pre pre w [] hsplit.1 hpre
  have hdwp : findClass wp dn = some dcls := by rw [hpresp dn hdn_pre]; exact hd
  have hstep := getFieldAnns_own wp dn dcls tl D hdwp hdmro hD hDne
  have hprot : ∀ n ∈ protectedNames wp dcls.mro, n ≠ f :=
    fun n hn => protectedNames_ne wp dcls.mro n f hn hfu
  have hD1f : dictGet ((protectedNames wp dcls.mro).foldl dictPop D) f = some t := by
    rw [dictGet_foldl_dictPop_ne _ f hprot D, hDf]
  have hD1nodup : (((protectedNames wp dcls.mro).foldl dictPop D).map Prod.fst).Nodup :=
    hDnodup.sublist ((foldl_dictPop_sublist _ D).map Prod.fst)
  have hacc2 : dictGet (dictUpdate accp ((protectedNames wp dcls.mro).foldl dictPop D)) f
      = some t :=
    dictGet_dictUpdate_mem _ f t hD1nodup hD1f accp
  have hwfpost : ∀ n ∈ post, ∃ c, findClass (writeAnns wp (.user dn)
      ((protectedNames wp dcls.mro).foldl dictPop D)) n = some c
      ∧ (∃ tl, c.mro = n :: tl) ∧ ∃ d, c.anns = some d ∧ d ≠ [] ∧ dictGet d f = none := by
    intro n hn
    have hn_dn : n ≠ dn := fun he => (List.nodup_cons.mp hsplit.2.1).1 (he ▸ hn)
    have hn_pre : n ∉ pre := fun hm => hdisj hm (List.mem_cons_of_mem dn hn)
    rw [findClass_writeAnns_ne wp dn _ n hn_dn, hpresp n hn_pre]
    exact hpost n hn
  obtain ⟨w1, acc1, heqq, hget⟩ :=
    inheritLoop_post post
      (writeAnns wp (.user dn) ((protectedNames wp dcls.mro).foldl dictPop D))
      (dictUpdate accp ((protectedNames wp dcls.mro).foldl dictPop D)) f t
      (List.nodup_cons.mp hsplit.2.1).2 hfu hacc2 hwfpost
  refine ⟨w1, acc1, ?_, hget⟩
  show inheritLoop w cls.mro.reverse [] = (w1, .ok acc1)
  rw [hrev, inheritLoop_append pre w (dn :: post) [], heqp]
  show (match _get_field_annotations wp dn with
    | (w1, .ok banns) => inheritLoop w1 post (dictUpdate accp banns)
    | (w1, .error e) => (w1, .error e)) = (w1, .ok acc1)
  rw [hstep]
  exact heqq

/-- C5 witness: `Child5` re-declares `Parent5`'s field `a` as `Series[str]`;
the merged annotation map gives `a` the child's type. -/
theorem inherit_override_witness :
    ∃ w' merged, _inherit_field_annotations exW5 exClsC5 = (w', .ok merged)
      ∧ dictGet merged "a" = some (.series (.base "str")) :=
  inherit_override exW5 exClsC5 ["Parent5"] [] "Child5" exClsC5 "a"
    (.series (.base "str")) [("a", .series (.base "str"))]
    (by rfl) (by decide)
    (fun n hn => by
      cases hn with
      | head =>
        exact ⟨exClsP5, by rfl, ⟨[], rfl⟩,
          [("a", .series (.base "int"))], rfl, by decide⟩
      | tail _ h => cases h)
    (by rfl) ⟨["Parent5"], rfl⟩ rfl (by decide) (by decide) (by decide)
    (fun n hn => absurd hn (List.not_mem_nil n)) rfl

end Pandera
